import Mathlib

/-!
# Verification of the news-hotspots-webcams ingestion pipeline

Shallow embedding of `src/index.js` (parser, classifier, aggregator,
ranker, camera enricher, snapshot builder).  JavaScript numbers are
modelled by `JSNum` (NaN, ±Infinity, or a finite rational; the model
ignores double rounding/overflow, which none of the inputs below hit);
JS string operations (`split` on a one-character separator, `trim`,
`toUpperCase`, `includes`) are modelled by executable functions on
character lists; network calls are modelled by `Except Unit` oracles
passed as parameters.
-/

namespace Hotspots

/-- Model of a JavaScript number: NaN, +Infinity, -Infinity, or a finite
value modelled as a rational. -/
inductive JSNum where
  | nan : JSNum
  | inf : JSNum
  | negInf : JSNum
  | fin : ℚ → JSNum
deriving DecidableEq, Repr

/-- `Number.isNaN`. -/
def JSNum.isNaN : JSNum → Bool
  | .nan => true
  | _ => false

/-- `Number.isFinite`. -/
def JSNum.isFinite : JSNum → Bool
  | .fin _ => true
  | _ => false

/-- The whitespace characters JS trims (ASCII part of StrWhiteSpace). -/
def isJsWs (c : Char) : Bool :=
  c = ' ' || c = '\t' || c = '\n' || c = '\r' || c = '\x0b' || c = '\x0c'

/-- JS `String.prototype.split` with a one-character separator
(every separator used in the source — `\t`, `;`, `#`, `\n` — is one
character).  Splitting the empty string yields `[""]`, as in JS. -/
def splitChar (sep : Char) : List Char → List (List Char)
  | [] => [[]]
  | c :: rest =>
    match splitChar sep rest with
    | [] => [[c]]
    | g :: gs => if c = sep then [] :: g :: gs else (c :: g) :: gs

/-- `s.split(sep)` at the `String` level. -/
def jsSplit (sep : Char) (s : String) : List String :=
  (splitChar sep s.data).map String.mk

/-- ASCII upper-casing of one character (the model of JS `toUpperCase`;
the inputs of interest are ASCII). -/
def upChar (c : Char) : Char :=
  if 'a' ≤ c && c ≤ 'z' then Char.ofNat (c.toNat - 32) else c

/-- JS `s.toUpperCase()`. -/
def jsToUpper (s : String) : String := String.mk (s.data.map upChar)

/-- JS `s.trim()`: strip whitespace from both ends. -/
def jsTrim (s : String) : String :=
  String.mk (((s.data.dropWhile isJsWs).reverse.dropWhile isJsWs).reverse)

/-- `pre` is a leading block of `l`. -/
def hasPre : List Char → List Char → Bool
  | [], _ => true
  | _ :: _, [] => false
  | a :: pre, b :: l => a = b && hasPre pre l

/-- `pat` occurs contiguously somewhere in `l`. -/
def hasSub (pat : List Char) : List Char → Bool
  | [] => pat.isEmpty
  | b :: l => hasPre pat (b :: l) || hasSub pat l

/-- JS `t.includes(k)`. -/
def jsIncludes (t k : String) : Bool := hasSub k.data t.data

/-- Numeric value of a decimal digit character. -/
def digitVal (c : Char) : Nat := c.toNat - 48

/-- Value of a list of decimal digit characters (most significant first). -/
def digitsVal (ds : List Char) : Nat := ds.foldl (fun a c => a * 10 + digitVal c) 0

/-- Exponent part of a JS numeric literal: `e`/`E` already consumed,
optional sign, digits.  Returns 0 when malformed (`parseFloat` then stops
before the `e`). -/
def parseExpTail (cs : List Char) : Int :=
  let (eneg, cs1) :=
    match cs with
    | '-' :: r => (true, r)
    | '+' :: r => (false, r)
    | _ => (false, cs)
  let ds := cs1.takeWhile Char.isDigit
  if ds.isEmpty then 0
  else if eneg then -(digitsVal ds : Int) else (digitsVal ds : Int)

/-- Dispatch on the `e`/`E` marker of an exponent part. -/
def parseExp : List Char → Int
  | 'e' :: r => parseExpTail r
  | 'E' :: r => parseExpTail r
  | _ => 0

/-- Model of JS `parseFloat`: skip leading whitespace, optional sign, then
either the literal `Infinity` or the longest decimal-literal prefix
(`digits [. digits] [exponent]`, or `. digits [exponent]`); `NaN` when no
digits are found.  The mantissa/exponent arithmetic is done in `Nat`/`Int`
and the value assembled with `mkRat`. -/
def parseFloat (s : String) : JSNum :=
  let cs := s.data.dropWhile isJsWs
  let (neg, cs0) :=
    match cs with
    | '-' :: r => (true, r)
    | '+' :: r => (false, r)
    | _ => (false, cs)
  if hasPre "Infinity".data cs0 then (if neg then JSNum.negInf else JSNum.inf)
  else
    let ip := cs0.takeWhile Char.isDigit
    let cs1 := cs0.dropWhile Char.isDigit
    let fp :=
      match cs1 with
      | '.' :: r => r.takeWhile Char.isDigit
      | _ => []
    let rest :=
      match cs1 with
      | '.' :: r => r.dropWhile Char.isDigit
      | _ => cs1
    if ip.isEmpty && fp.isEmpty then JSNum.nan
    else
      let mant : Nat := digitsVal ip * 10 ^ fp.length + digitsVal fp
      let e : Int := parseExp rest - (fp.length : Int)
      let signed : Nat → Int := fun x => if neg then -(x : Int) else (x : Int)
      JSNum.fin <|
        if 0 ≤ e then mkRat (signed (mant * 10 ^ e.toNat)) 1
        else mkRat (signed mant) (10 ^ (-e).toNat)

/-- JS `o || d` for an optional string field (`undefined` and `""` are falsy). -/
def jsOrD (o : Option String) (d : String) : String :=
  match o with
  | none => d
  | some s => if s = "" then d else s

/-- One geographic mention parsed from a `#`-delimited geo token. -/
structure GeoMention where
  name : String
  lat : JSNum
  lon : JSNum
  country : String
deriving DecidableEq, Repr

/-- The geo-token parser inside `fetchGKGLastHour`: split on `#`,
name from field 0, country from field 2, lat/lon via `parseFloat` of
fields 4 and 5 (missing/empty fields default to `"0"`); drop the token
when the name is empty or a coordinate is NaN. -/
def parseGeoToken (tok : String) : Option GeoMention :=
  let p := jsSplit '#' tok
  let name := jsOrD (p.get? 0) ""
  let lat := parseFloat (jsOrD (p.get? 4) "0")
  let lon := parseFloat (jsOrD (p.get? 5) "0")
  let country := jsOrD (p.get? 2) ""
  if name = "" || lat.isNaN || lon.isNaN then none
  else some { name := name, lat := lat, lon := lon, country := country }

/-- One row of the raw feed, as parsed. -/
structure EventFact where
  themes : List String
  locations : List GeoMention
deriving DecidableEq, Repr

/-- Theme tags of a row: column 4, split on `;`, empty tags dropped. -/
def rowThemes (cols : List String) : List String :=
  (jsSplit ';' ((cols.get? 4).getD "")).filter (fun s => s ≠ "")

/-- Geo tokens of a row: column 8, split on `;`, empty tokens dropped. -/
def rowGeoTokens (cols : List String) : List String :=
  (jsSplit ';' ((cols.get? 8).getD "")).filter (fun s => s ≠ "")

/-- Parse one row (tab-separated columns) into an `EventFact`. -/
def parseRow (line : String) : EventFact :=
  let cols := jsSplit '\t' line
  { themes := rowThemes cols
  , locations := (rowGeoTokens cols).filterMap parseGeoToken }

/-- The parsing part of `fetchGKGLastHour`: trim the response text, split
into lines, parse every line into an `EventFact`. -/
def parseGKG (text : String) : List EventFact :=
  (jsSplit '\n' (jsTrim text)).map parseRow

/-- The classifier's fixed, ordered rule table. -/
def RULES : List (String × List String) :=
  [ ("war", ["WAR", "MILITARY", "ARMS", "CONFLICT", "TERROR"])
  , ("crime", ["CRIME", "KIDNAP", "MURDER", "ARREST", "CORRUPTION"])
  , ("politics", ["ELECTION", "POLITICS", "GOVERNMENT", "PROTEST"])
  , ("entertainment", ["ENTERTAINMENT", "CELEBRITY", "FILM", "MUSIC"])
  , ("disaster", ["NATURAL_DISASTER", "EARTHQUAKE", "FLOOD", "HURRICANE", "WILDFIRE"])
  , ("sports", ["SPORTS", "SOCCER", "BASKETBALL", "OLYMPICS"])
  , ("tech", ["TECH", "AI", "CYBERSECURITY"])
  , ("economy", ["ECONOMY", "MARKETS", "INFLATION", "JOBS"]) ]

/-- A rule fires when some keyword occurs in some (upper-cased) theme. -/
def ruleHit (inc : List String) (up : List String) : Bool :=
  inc.any (fun k => up.any (fun t => jsIncludes t k))

/-- First rule (in order) that fires wins. -/
def firstMatch : List (String × List String) → List String → Option String
  | [], _ => none
  | (cat, inc) :: rs, up => if ruleHit inc up then some cat else firstMatch rs up

/-- `mapThemesToCategory` from the source: upper-case the themes, return the
category of the first rule with a keyword occurring in some theme. -/
def mapThemesToCategory (themes : List String) : Option String :=
  firstMatch RULES (themes.map jsToUpper)

/-! ## Aggregation (place buckets keyed by rounded coordinates + name) -/

/-- Decimal digit character for a value `< 10`. -/
def digitChar : Nat → Char
  | 0 => '0' | 1 => '1' | 2 => '2' | 3 => '3' | 4 => '4'
  | 5 => '5' | 6 => '6' | 7 => '7' | 8 => '8' | _ => '9'

/-- Decimal digits, most significant first, with structural fuel
(`fuel ≥ n` suffices since `n / 10` shrinks). -/
def natDigitsAux : Nat → Nat → List Char
  | 0, _ => []
  | _ + 1, 0 => []
  | fuel + 1, n + 1 => natDigitsAux fuel ((n + 1) / 10) ++ [digitChar ((n + 1) % 10)]

/-- Decimal digits of a natural number, most significant first (`[]` for 0). -/
def natDigits (n : Nat) : List Char := natDigitsAux n n

/-- Pad a digit string with leading zeros to length at least 4 (ECMA
`toFixed`: the digit string must reach past the three decimals). -/
def padTo4 (ds : List Char) : List Char :=
  if ds.length ≤ 3 then List.replicate (4 - ds.length) '0' ++ ds else ds

/-- Render `n / 1000` with exactly three decimals (the digit-string part of
`Number.prototype.toFixed(3)`): pad the digits of `n`, then insert the
decimal point before the last three. -/
def fixed3 (n : Nat) : List Char :=
  (padTo4 (natDigits n)).take ((padTo4 (natDigits n)).length - 3) ++
    '.' :: (padTo4 (natDigits n)).drop ((padTo4 (natDigits n)).length - 3)

/-- Model of JS `x.toFixed(3)`: `"NaN"`/`"Infinity"`/`"-Infinity"` for the
special values; for a finite `q`, the sign of `q` (negative values keep
their minus sign even when the rounded magnitude is zero) followed by the
integer closest to `|q|·1000` (ties to the larger) rendered with three
decimals.  `(2000·|num| + den) / (2·den)` is that closest integer.
(Scope of the model: JS switches to exponential notation for `|x| ≥ 1e21`;
no input below is anywhere near that.) -/
def toFixed3 : JSNum → String
  | .nan => "NaN"
  | .inf => "Infinity"
  | .negInf => "-Infinity"
  | .fin q =>
    let n : Nat := (2000 * q.num.natAbs + q.den) / (2 * q.den)
    String.mk ((if q.num < 0 then ['-'] else []) ++ fixed3 n)

/-- The aggregation key built in `ingestOnce`:
`lat.toFixed(3) + "," + lon.toFixed(3) + ":" + name`. -/
def mentionKey (loc : GeoMention) : String :=
  toFixed3 loc.lat ++ "," ++ toFixed3 loc.lon ++ ":" ++ loc.name

/-- A place bucket: identity fields seeded from the first mention, plus
per-category counts (insertion-ordered, like a JS object). -/
structure Bucket where
  name : String
  lat : JSNum
  lon : JSNum
  country : String
  counts : List (String × Nat)
deriving DecidableEq, Repr

/-- Lookup in an insertion-ordered association list (first match wins). -/
def lookupA {α : Type} (k : String) : List (String × α) → Option α
  | [] => none
  | (k', v) :: rest => if k' = k then some v else lookupA k rest

/-- `counts[cat] || 0`. -/
def countsGet (counts : List (String × Nat)) (cat : String) : Nat :=
  (lookupA cat counts).getD 0

/-- `curr.counts[cat] = (curr.counts[cat] || 0) + 1` on a JS object:
increment in place, or append the new key at the end. -/
def bump (cat : String) : List (String × Nat) → List (String × Nat)
  | [] => [(cat, 1)]
  | (c, n) :: rest => if c = cat then (c, n + 1) :: rest else (c, n) :: bump cat rest

/-- One aggregation step of `ingestOnce` on the insertion-ordered bucket
map: fetch-or-create the bucket for the mention's key (`Map.set` keeps the
position of an existing key, appends a new one) and bump `counts[cat]`;
a fresh bucket is seeded with the mention's `name`/`lat`/`lon`/`country`. -/
def aggStep (cat : String) (loc : GeoMention) : List (String × Bucket) → List (String × Bucket)
  | [] => [(mentionKey loc,
            { name := loc.name, lat := loc.lat, lon := loc.lon, country := loc.country
            , counts := [(cat, 1)] })]
  | (k, b) :: rest =>
    if k = mentionKey loc then (k, { b with counts := bump cat b.counts }) :: rest
    else (k, b) :: aggStep cat loc rest

/-- The aggregation loop of `ingestOnce`: classify each fact; skip it when
no rule matches; otherwise fold every geo mention into the bucket map. -/
def aggregate (facts : List EventFact) : List (String × Bucket) :=
  facts.foldl
    (fun B f =>
      match mapThemesToCategory f.themes with
      | none => B
      | some cat => f.locations.foldl (fun B loc => aggStep cat loc B) B)
    []

/-! ## Ranker -/

/-- A bucket projected into one category with its score (`{...p, score: count}`). -/
structure RankedPlace where
  name : String
  lat : JSNum
  lon : JSNum
  country : String
  counts : List (String × Nat)
  score : Nat
deriving DecidableEq, Repr

/-- Spread a bucket and attach a score. -/
def toRanked (b : Bucket) (count : Nat) : RankedPlace :=
  { name := b.name, lat := b.lat, lon := b.lon, country := b.country
  , counts := b.counts, score := count }

/-- `cats[cat].push(rp)` on a JS object keyed by category: append to the
existing group (keeping its position) or create a new key at the end. -/
def pushCat (cat : String) (rp : RankedPlace) :
    List (String × List RankedPlace) → List (String × List RankedPlace)
  | [] => [(cat, [rp])]
  | (c, l) :: rest =>
    if c = cat then (c, l ++ [rp]) :: rest else (c, l) :: pushCat cat rp rest

/-- The grouping loop of `rankPlaces`: for each place (in input order) and
each `(cat, count)` entry of its counts, push a `RankedPlace`. -/
def buildCats (places : List Bucket) : List (String × List RankedPlace) :=
  places.foldl
    (fun cats p => p.counts.foldl (fun cats e => pushCat e.1 (toRanked p e.2) cats) cats)
    []

/-- Insert into a descending-sorted list, after every element with a
score ≥ the new one (the stable position). -/
def insertDesc (c : RankedPlace) : List RankedPlace → List RankedPlace
  | [] => [c]
  | x :: xs => if c.score ≤ x.score then x :: insertDesc c xs else c :: x :: xs

/-- Stable descending sort by score (the model of `_.orderBy(..., ["score"],
["desc"])`, which is a stable sort). -/
def sortDesc (l : List RankedPlace) : List RankedPlace :=
  l.foldl (fun acc c => insertDesc c acc) []

/-- `rankPlaces` from the source: group by category, stable-sort each group
descending by score, truncate to the top `n`. -/
def rankPlaces (n : Nat) (places : List Bucket) : List (String × List RankedPlace) :=
  (buildCats places).map (fun e => (e.1, (sortDesc e.2).take n))

/-! ## Camera enricher -/

/-- A camera record (§3 of the spec); absent optional fields are `""`. -/
structure Camera where
  id : String
  title : String
  image : String
  player : String
  url : String
  source : String
  verified : Bool
deriving DecidableEq, Repr

/-- A webcam descriptor as returned by the primary (Windy) provider,
flattened: `status`, `player.live.available`, `id`, `title`,
`image.current.preview`, `player.live.embed`, `player.live.link`,
`url.current.desktop`. -/
structure WindyCam where
  status : String
  liveAvailable : Bool
  id : String
  title : String
  preview : String
  embed : String
  link : String
  desktop : String
deriving DecidableEq, Repr

/-- ASCII lower-casing of one character (model of JS `toLowerCase`). -/
def downChar (c : Char) : Char :=
  if 'A' ≤ c && c ≤ 'Z' then Char.ofNat (c.toNat + 32) else c

/-- JS `s.toLowerCase()`. -/
def jsToLower (s : String) : String := String.mk (s.data.map downChar)

/-- The projection part of `windyNearby`: keep cameras whose status
lower-cases to `"active"` and that are live-available, project to `Camera`
(`url` is `link || desktop || ""`), and slice to the first `m`. -/
def windyNearby (m : Nat) (resp : List WindyCam) : List Camera :=
  ((resp.filter (fun c => jsToLower c.status = "active" && c.liveAvailable)).map
    (fun c =>
      { id := c.id, title := c.title, image := c.preview, player := c.embed
      , url := if c.link = "" then c.desktop else c.link
      , source := "windy", verified := true })).take m

/-- A live-video result from the secondary (YouTube) provider. -/
structure YtItem where
  videoId : String
  title : String
  thumb : String
deriving DecidableEq, Repr

/-- The projection part of `ytSearch`: derive embed/watch URLs from the id. -/
def ytCam (v : YtItem) : Camera :=
  { id := v.videoId, title := v.title, image := v.thumb
  , player := "https://www.youtube.com/embed/" ++ v.videoId
  , url := "https://www.youtube.com/watch?v=" ++ v.videoId
  , source := "youtube", verified := true }

/-- The fixed ordered phrase list of the secondary fallback. -/
def SEARCH_KWS : List String :=
  ["live cam", "traffic cam", "weather cam", "city cam", "library cam",
   "airport cam", "public cam", "webcam live"]

/-- The inner `for (const c of more)` loop: push `c` unless some collected
camera already has the same `url`; after each iteration stop once the
count reaches `m`. -/
def pushLoop (m : Nat) : List Camera → List Camera → List Camera
  | cams, [] => cams
  | cams, c :: rest =>
    let cams' := if cams.any (fun x => x.url = c.url) then cams else cams ++ [c]
    if m ≤ cams'.length then cams' else pushLoop m cams' rest

/-- The phrase loop of the secondary fallback.  The `try`/`catch` in the
source wraps the WHOLE loop, so a failing search returns the cameras
collected so far and abandons the remaining phrases. -/
def secondaryLoop (m : Nat) (yt : String → Except Unit (List YtItem)) (name : String) :
    List String → List Camera → List Camera
  | [], cams => cams
  | kw :: rest, cams =>
    if m ≤ cams.length then cams
    else
      match yt (name ++ " " ++ kw) with
      | .error _ => cams
      | .ok items => secondaryLoop m yt name rest (pushLoop m cams (items.map ytCam))

/-- Identity key for dedup: `url || player || id`. -/
def camKey (c : Camera) : String :=
  if c.url ≠ "" then c.url else if c.player ≠ "" then c.player else c.id

/-- `_.uniqBy`, with the set of keys already kept made explicit: keep a
camera exactly when its key has not been seen yet. -/
def uniqByAcc (key : Camera → String) (seen : List String) : List Camera → List Camera
  | [] => []
  | c :: rest =>
    if seen.any (fun s => s = key c) then uniqByAcc key seen rest
    else c :: uniqByAcc key (key c :: seen) rest

/-- `_.uniqBy`: keep the first occurrence of each key. -/
def uniqBy (key : Camera → String) (l : List Camera) : List Camera :=
  uniqByAcc key [] l

/-- `findCamsForPlace` from the source, with the two providers as oracles:
primary result (errors caught → `[]`), secondary fallback only while the
count is below `m`, then dedup by identity key and truncate to `m`. -/
def findCamsForPlace (m : Nat) (windyResp : Except Unit (List WindyCam))
    (yt : String → Except Unit (List YtItem)) (name : String) : List Camera :=
  let cams : List Camera :=
    match windyResp with
    | .error _ => []
    | .ok ws => windyNearby m ws
  let cams := if cams.length < m then secondaryLoop m yt name SEARCH_KWS cams else cams
  (uniqBy camKey cams).take m

/-! ## Snapshot builder -/

/-- The `place` projection pushed into a category entry. -/
structure PlaceView where
  name : String
  country : String
  lat : JSNum
  lon : JSNum
  score : Nat
deriving DecidableEq, Repr

/-- The camera projection pushed into a category entry. -/
structure CamView where
  title : String
  url : String
  image : String
  source : String
  player : String
deriving DecidableEq, Repr

/-- One `{place, cams}` entry of a category. -/
structure CatEntry where
  place : PlaceView
  cams : List CamView
deriving DecidableEq, Repr

/-- One record of the flat `places` list (`{category: cat, ...p, cams}`). -/
structure PlaceRec where
  category : String
  name : String
  lat : JSNum
  lon : JSNum
  country : String
  counts : List (String × Nat)
  score : Nat
  cams : List Camera
deriving DecidableEq, Repr

/-- Project a camera for a category entry. -/
def camView (c : Camera) : CamView :=
  { title := c.title, url := c.url, image := c.image, source := c.source, player := c.player }

/-- Project a ranked place for a category entry. -/
def placeView (p : RankedPlace) : PlaceView :=
  { name := p.name, country := p.country, lat := p.lat, lon := p.lon, score := p.score }

/-- Build one flat-list record. -/
def placeRec (cat : String) (p : RankedPlace) (cams : List Camera) : PlaceRec :=
  { category := cat, name := p.name, lat := p.lat, lon := p.lon, country := p.country
  , counts := p.counts, score := p.score, cams := cams }

/-- The inner loop body of the snapshot builder: skip the place when its
camera list is empty (`if (!cams.length) continue`), else append the
category entry and the flat-list record. -/
def placeStep (cat : String) (camsOf : RankedPlace → List Camera)
    (acc2 : List CatEntry × List PlaceRec) (p : RankedPlace) :
    List CatEntry × List PlaceRec :=
  let cams := camsOf p
  if cams = [] then acc2
  else (acc2.1 ++ [{ place := placeView p, cams := cams.map camView }],
        acc2.2 ++ [placeRec cat p cams])

/-- The outer loop body: create the category's key first
(`categories[cat] = []`), then run the inner loop over its ranked places. -/
def catStep (camsOf : RankedPlace → List Camera)
    (acc : List (String × List CatEntry) × List PlaceRec)
    (e : String × List RankedPlace) : List (String × List CatEntry) × List PlaceRec :=
  let inner := e.2.foldl (placeStep e.1 camsOf) ([], acc.2)
  (acc.1 ++ [(e.1, inner.1)], inner.2)

/-- The snapshot-building loop of `ingestOnce`: for every ranked category
a key is created (even when every place is later skipped); places whose
camera list is empty are omitted from both the category's entry list and
the flat `places` list. -/
def buildSections (camsOf : RankedPlace → List Camera)
    (ranked : List (String × List RankedPlace)) :
    List (String × List CatEntry) × List PlaceRec :=
  ranked.foldl (catStep camsOf) ([], [])

/-- The published snapshot. -/
structure State where
  updatedAt : Option String
  categories : List (String × List CatEntry)
  places : List PlaceRec
deriving DecidableEq, Repr

/-- One ingestion run, composed with the caller's `try`/`catch`: when the
feed fetch errors, the previous state is left untouched; otherwise parse,
aggregate, rank, enrich each ranked place through the provider oracles, and
replace the state with the freshly built snapshot. -/
def ingestOnce (n m : Nat) (feed : Except Unit String)
    (windy : RankedPlace → Except Unit (List WindyCam))
    (yt : String → Except Unit (List YtItem))
    (now : String) (prev : State) : State :=
  match feed with
  | .error _ => prev
  | .ok text =>
    let facts := parseGKG text
    let buckets := aggregate facts
    let ranked := rankPlaces n (buckets.map Prod.snd)
    let built := buildSections (fun p => findCamsForPlace m (windy p) yt p.name) ranked
    { updatedAt := some now, categories := built.1, places := built.2 }

example : parseFloat "30.52" = JSNum.fin (mkRat 3052 100) := by decide
example : parseFloat "Infinity" = JSNum.inf := by decide
example : parseFloat "" = JSNum.nan := by decide
example : parseFloat "-1.5e2" = JSNum.fin (mkRat (-150) 1) := by decide
example : parseFloat "abc" = JSNum.nan := by decide
example : mapThemesToCategory ["MILITARY_ACTIVITY", "TERROR"] = some "war" := by decide
example : mapThemesToCategory ["elections and jobs"] = some "politics" := by decide
example : mapThemesToCategory ["X"] = none := by decide
example : parseGeoToken "Kyiv#1#UA#2#50.45#30.52" =
    some { name := "Kyiv", lat := JSNum.fin (mkRat 5045 100), lon := JSNum.fin (mkRat 3052 100),
           country := "UA" } := by
  decide
example : parseGeoToken "#1#UA#2#50.45#30.52" = none := by decide
example : parseGeoToken "Kyiv#1#UA#2#x#30.52" = none := by decide
example : parseGKG "a\tb\nc" = [parseRow "a\tb", parseRow "c"] := by decide
example : toFixed3 (JSNum.fin (mkRat 5045 100)) = "50.450" := by decide
example : toFixed3 (JSNum.fin (mkRat 1 10000)) = "0.000" := by decide
example : toFixed3 (JSNum.fin (mkRat (-1) 10000)) = "-0.000" := by decide
example : toFixed3 JSNum.inf = "Infinity" := by decide
example : toFixed3 (JSNum.fin (mkRat 0 1)) = "0.000" := by decide
example :
    mentionKey { name := "Kyiv", lat := JSNum.fin (mkRat 5045 100),
                 lon := JSNum.fin (mkRat 3052 100), country := "UA" } =
      "50.450,30.520:Kyiv" := by decide
example :
    aggregate [{ themes := ["MILITARY_ACTIVITY", "TERROR"]
               , locations := [{ name := "Kyiv", lat := JSNum.fin (mkRat 5045 100),
                                 lon := JSNum.fin (mkRat 3052 100), country := "UA" }] }] =
      [("50.450,30.520:Kyiv",
        { name := "Kyiv", lat := JSNum.fin (mkRat 5045 100), lon := JSNum.fin (mkRat 3052 100)
        , country := "UA", counts := [("war", 1)] })] := by decide
example :
    findCamsForPlace 10 (Except.ok []) (fun _ => Except.ok []) "Paris" = [] := by decide

/-! ## C3: a failed feed fetch publishes nothing -/

/-- C3: if the feed fetch errors, the run publishes nothing: the previous
snapshot reference — including its `updatedAt`, `categories` and `places` —
is left unchanged (the caller's `catch` only logs). -/
theorem feed_failure_preserves_snapshot (n m : Nat)
    (windy : RankedPlace → Except Unit (List WindyCam))
    (yt : String → Except Unit (List YtItem)) (now : String) (prev : State) :
    ingestOnce n m (Except.error ()) windy yt now prev = prev ∧
    (ingestOnce n m (Except.error ()) windy yt now prev).updatedAt = prev.updatedAt ∧
    (ingestOnce n m (Except.error ()) windy yt now prev).categories = prev.categories ∧
    (ingestOnce n m (Except.error ()) windy yt now prev).places = prev.places :=
  ⟨rfl, rfl, rfl, rfl⟩

/-! ## C7: camera dedup and cap -/

theorem uniqByAcc_mem_key {key : Camera → String} {x : Camera} :
    ∀ {l : List Camera} {seen : List String}, x ∈ uniqByAcc key seen l → key x ∉ seen := by
  intro l
  induction l with
  | nil => intro seen hx; simp [uniqByAcc] at hx
  | cons c rest ih =>
    intro seen hx
    by_cases h : seen.any (fun s => s = key c)
    · rw [uniqByAcc, if_pos h] at hx
      exact ih hx
    · rw [uniqByAcc, if_neg h] at hx
      rcases List.mem_cons.mp hx with rfl | hx
      · intro hmem
        exact h (List.any_eq_true.mpr ⟨key x, hmem, by simp⟩)
      · intro hmem
        exact ih hx (List.mem_cons_of_mem _ hmem)

theorem uniqByAcc_pairwise (key : Camera → String) :
    ∀ (l : List Camera) (seen : List String),
      (uniqByAcc key seen l).Pairwise (fun a b => key a ≠ key b) := by
  intro l
  induction l with
  | nil => intro seen; simp [uniqByAcc]
  | cons c rest ih =>
    intro seen
    by_cases h : seen.any (fun s => s = key c)
    · rw [uniqByAcc, if_pos h]; exact ih seen
    · rw [uniqByAcc, if_neg h]
      refine List.Pairwise.cons ?_ (ih (key c :: seen))
      intro b hb hkey
      exact uniqByAcc_mem_key hb (by simp [hkey])

/-- C7: for every place and whatever the two providers return, the enriched
camera list has pairwise distinct identity keys (`url || player || id`) and
length at most the configured maximum `m`. -/
theorem cam_list_dedup_and_capped (m : Nat) (windyResp : Except Unit (List WindyCam))
    (yt : String → Except Unit (List YtItem)) (name : String) :
    (findCamsForPlace m windyResp yt name).Pairwise (fun a b => camKey a ≠ camKey b) ∧
    (findCamsForPlace m windyResp yt name).length ≤ m := by
  unfold findCamsForPlace
  exact ⟨List.Pairwise.sublist (List.take_sublist _ _) (uniqByAcc_pairwise camKey _ []),
         List.length_take_le _ _⟩

/-! ## C2: a failing secondary search phrase -/

/-- A YouTube search result used in concrete scenarios. -/
def ytItemA : YtItem := { videoId := "A1", title := "Traffic", thumb := "t" }

/-- Oracle whose first phrase query fails and whose second returns one item. -/
def ytFailFirst : String → Except Unit (List YtItem) :=
  fun q =>
    if q = "Paris live cam" then Except.error ()
    else if q = "Paris traffic cam" then Except.ok [ytItemA] else Except.ok []

/-- The same oracle with the failure replaced by an empty success. -/
def ytZeroFirst : String → Except Unit (List YtItem) :=
  fun q =>
    if q = "Paris live cam" then Except.ok []
    else if q = "Paris traffic cam" then Except.ok [ytItemA] else Except.ok []

/-- C2 counterexample: a failing first phrase is NOT treated as zero results
for that phrase only — it aborts the remaining phrases.  With the failure,
the enricher returns `[]`; had the failure been an empty result, iteration
would have continued and collected the second phrase's camera. -/
theorem secondary_phrase_failure_cex :
    findCamsForPlace 10 (Except.ok []) ytFailFirst "Paris" = [] ∧
    findCamsForPlace 10 (Except.ok []) ytZeroFirst "Paris" = [ytCam ytItemA] := by
  decide

/-- C2 (amended): a failure of a keyword-search call is caught OUTSIDE the
phrase loop: the fallback stops, keeps the cameras collected so far, and no
later phrase is queried; the run itself continues. -/
theorem secondary_phrase_failure_aborts (m : Nat) (yt : String → Except Unit (List YtItem))
    (name kw : String) (rest : List String) (cams : List Camera)
    (hlen : cams.length < m) (herr : yt (name ++ " " ++ kw) = Except.error ()) :
    secondaryLoop m yt name (kw :: rest) cams = cams := by
  rw [secondaryLoop, if_neg (by omega), herr]

theorem secondary_phrase_failure_aborts_witness :
    ([] : List Camera).length < 10 ∧
    ytFailFirst ("Paris" ++ " " ++ "live cam") = Except.error () ∧
    secondaryLoop 10 ytFailFirst "Paris" ["live cam", "traffic cam"] [] = [] :=
  ⟨by decide, rfl,
   secondary_phrase_failure_aborts 10 ytFailFirst "Paris" "live cam" ["traffic cam"] []
     (by decide) rfl⟩

/-! ## C9: parsing is total, row by row -/

/-- C9: parsing never fails: for every raw feed text, every line of the
trimmed text — whatever its column count — contributes exactly one
`EventFact`, whose themes and locations are whatever parsed from columns 4
and 8 (possibly empty). -/
theorem parse_never_raises (text : String) :
    (parseGKG text).length = (jsSplit '\n' (jsTrim text)).length ∧
    ∀ i (hi : i < (parseGKG text).length) (hj : i < (jsSplit '\n' (jsTrim text)).length),
      (parseGKG text).get ⟨i, hi⟩ =
        { themes := rowThemes (jsSplit '\t' ((jsSplit '\n' (jsTrim text)).get ⟨i, hj⟩))
        , locations :=
            (rowGeoTokens (jsSplit '\t' ((jsSplit '\n' (jsTrim text)).get ⟨i, hj⟩))).filterMap
              parseGeoToken } := by
  refine ⟨by simp [parseGKG], ?_⟩
  intro i hi hj
  simp [parseGKG, List.get_eq_getElem, List.getElem_map, parseRow]

theorem parse_never_raises_witness :
    (parseGKG "single malformed row").length =
      (jsSplit '\n' (jsTrim "single malformed row")).length ∧
    (parseGKG "single malformed row").get ⟨0, by decide⟩ =
      { themes := rowThemes (jsSplit '\t' ((jsSplit '\n' (jsTrim "single malformed row")).get ⟨0, by decide⟩))
      , locations :=
          (rowGeoTokens (jsSplit '\t' ((jsSplit '\n' (jsTrim "single malformed row")).get ⟨0, by decide⟩))).filterMap
            parseGeoToken } :=
  ⟨(parse_never_raises "single malformed row").1,
   (parse_never_raises "single malformed row").2 0 (by decide) (by decide)⟩

/-! ## C1: which geo tokens are kept -/

/-- C1 counterexample: the code only rejects NaN coordinates, not infinite
ones.  The token `Kyiv##UA##Infinity#30.52` (field 4 = `"Infinity"`, which
`parseFloat` maps to `+Infinity`, not NaN) is KEPT, with a non-finite
latitude — contradicting "a kept token yields … lat … lon …, all finite"
and "dropped exactly when it fails to yield … two finite coordinates". -/
theorem geo_token_infinite_kept_cex :
    parseGeoToken "Kyiv##UA##Infinity#30.52" =
      some { name := "Kyiv", lat := JSNum.inf, lon := JSNum.fin (mkRat 3052 100)
           , country := "UA" } ∧
    JSNum.inf.isFinite = false := by
  decide

/-- C1 (amended): a geo token is dropped exactly when it fails to yield a
non-empty name (`#`-field 0) or two non-NaN coordinates (`parseFloat` of
`#`-fields 4 and 5, an absent/empty field defaulting to `"0"`); a kept
token yields a `GeoMention` with name from field 0, country from field 2,
lat from field 4 and lon from field 5, both non-NaN (but not necessarily
finite: `Infinity` passes the check). -/
theorem geo_token_characterization (tok : String) :
    (parseGeoToken tok = none ↔
      (jsOrD ((jsSplit '#' tok).get? 0) "" = "" ∨
       (parseFloat (jsOrD ((jsSplit '#' tok).get? 4) "0")).isNaN = true ∨
       (parseFloat (jsOrD ((jsSplit '#' tok).get? 5) "0")).isNaN = true)) ∧
    (∀ gm, parseGeoToken tok = some gm →
      gm.name = jsOrD ((jsSplit '#' tok).get? 0) "" ∧
      gm.country = jsOrD ((jsSplit '#' tok).get? 2) "" ∧
      gm.lat = parseFloat (jsOrD ((jsSplit '#' tok).get? 4) "0") ∧
      gm.lon = parseFloat (jsOrD ((jsSplit '#' tok).get? 5) "0") ∧
      gm.name ≠ "" ∧ gm.lat.isNaN = false ∧ gm.lon.isNaN = false) := by
  by_cases h : (jsOrD ((jsSplit '#' tok).get? 0) "" = "" ∨
      (parseFloat (jsOrD ((jsSplit '#' tok).get? 4) "0")).isNaN = true ∨
      (parseFloat (jsOrD ((jsSplit '#' tok).get? 5) "0")).isNaN = true)
  · have hz : parseGeoToken tok = none := by
      simp only [parseGeoToken]
      rw [if_pos (by simp only [Bool.or_eq_true, decide_eq_true_eq]; exact or_assoc.mpr h)]
    refine ⟨⟨fun _ => h, fun _ => hz⟩, ?_⟩
    intro gm hgm
    rw [hz] at hgm
    cases hgm
  · have hs : parseGeoToken tok =
        some { name := jsOrD ((jsSplit '#' tok).get? 0) ""
             , lat := parseFloat (jsOrD ((jsSplit '#' tok).get? 4) "0")
             , lon := parseFloat (jsOrD ((jsSplit '#' tok).get? 5) "0")
             , country := jsOrD ((jsSplit '#' tok).get? 2) "" } := by
      simp only [parseGeoToken]
      rw [if_neg (by simp only [Bool.or_eq_true, decide_eq_true_eq]
                     exact fun hc => h (or_assoc.mp hc))]
    push_neg at h
    obtain ⟨h1, h2, h3⟩ := h
    refine ⟨⟨fun he => ?_, fun hd => absurd hd (by push_neg; exact ⟨h1, h2, h3⟩)⟩, ?_⟩
    · rw [hs] at he; cases he
    · intro gm hgm
      rw [hs] at hgm
      cases hgm
      exact ⟨rfl, rfl, rfl, rfl, h1, Bool.not_eq_true _ |>.mp h2, Bool.not_eq_true _ |>.mp h3⟩

theorem geo_token_characterization_witness :
    parseGeoToken "Kyiv#1#UA#2#50.45#30.52" =
      some { name := "Kyiv", lat := JSNum.fin (mkRat 5045 100)
           , lon := JSNum.fin (mkRat 3052 100), country := "UA" } ∧
    (({ name := "Kyiv", lat := JSNum.fin (mkRat 5045 100)
      , lon := JSNum.fin (mkRat 3052 100), country := "UA" } : GeoMention).name =
        jsOrD ((jsSplit '#' "Kyiv#1#UA#2#50.45#30.52").get? 0) "" ∧
     ({ name := "Kyiv", lat := JSNum.fin (mkRat 5045 100)
      , lon := JSNum.fin (mkRat 3052 100), country := "UA" } : GeoMention).country =
        jsOrD ((jsSplit '#' "Kyiv#1#UA#2#50.45#30.52").get? 2) "" ∧
     ({ name := "Kyiv", lat := JSNum.fin (mkRat 5045 100)
      , lon := JSNum.fin (mkRat 3052 100), country := "UA" } : GeoMention).lat =
        parseFloat (jsOrD ((jsSplit '#' "Kyiv#1#UA#2#50.45#30.52").get? 4) "0") ∧
     ({ name := "Kyiv", lat := JSNum.fin (mkRat 5045 100)
      , lon := JSNum.fin (mkRat 3052 100), country := "UA" } : GeoMention).lon =
        parseFloat (jsOrD ((jsSplit '#' "Kyiv#1#UA#2#50.45#30.52").get? 5) "0") ∧
     ({ name := "Kyiv", lat := JSNum.fin (mkRat 5045 100)
      , lon := JSNum.fin (mkRat 3052 100), country := "UA" } : GeoMention).name ≠ "" ∧
     ({ name := "Kyiv", lat := JSNum.fin (mkRat 5045 100)
      , lon := JSNum.fin (mkRat 3052 100), country := "UA" } : GeoMention).lat.isNaN = false ∧
     ({ name := "Kyiv", lat := JSNum.fin (mkRat 5045 100)
      , lon := JSNum.fin (mkRat 3052 100), country := "UA" } : GeoMention).lon.isNaN = false) :=
  ⟨by decide,
   (geo_token_characterization "Kyiv#1#UA#2#50.45#30.52").2
     { name := "Kyiv", lat := JSNum.fin (mkRat 5045 100)
     , lon := JSNum.fin (mkRat 3052 100), country := "UA" } (by decide)⟩

/-! ## C4: classifier — first matching rule wins -/

/-- `k` is a case-insensitive substring of `t` (both sides upper-cased). -/
def ciSubstr (k t : String) : Prop := jsIncludes (jsToUpper t) (jsToUpper k) = true

instance (k t : String) : Decidable (ciSubstr k t) :=
  inferInstanceAs (Decidable (jsIncludes (jsToUpper t) (jsToUpper k) = true))

/-- Some keyword of `inc` is a case-insensitive substring of some theme. -/
def ciHit (inc : List String) (themes : List String) : Prop :=
  ∃ k ∈ inc, ∃ t ∈ themes, ciSubstr k t

instance (inc themes : List String) : Decidable (ciHit inc themes) :=
  inferInstanceAs (Decidable (∃ k ∈ inc, ∃ t ∈ themes, ciSubstr k t))

/-- Every keyword in the rule table is already upper-case. -/
theorem rules_keywords_upper : ∀ r ∈ RULES, ∀ k ∈ r.2, jsToUpper k = k := by decide

/-- The code's test (keyword occurs in some upper-cased theme) agrees with
case-insensitive substring matching, for upper-case keywords. -/
theorem ruleHit_iff (inc themes : List String) (hk : ∀ k ∈ inc, jsToUpper k = k) :
    ruleHit inc (themes.map jsToUpper) = true ↔ ciHit inc themes := by
  unfold ruleHit ciHit
  simp only [List.any_map, List.any_eq_true, Function.comp]
  constructor
  · rintro ⟨k, hkmem, t0, ht0, hinc⟩
    exact ⟨k, hkmem, t0, ht0, by rw [ciSubstr, hk k hkmem]; exact hinc⟩
  · rintro ⟨k, hkmem, t0, ht0, hci⟩
    refine ⟨k, hkmem, t0, ht0, ?_⟩
    rw [ciSubstr, hk k hkmem] at hci
    exact hci

theorem firstMatch_eq_none_iff (rs : List (String × List String)) (up : List String) :
    firstMatch rs up = none ↔ ∀ r ∈ rs, ruleHit r.2 up = false := by
  induction rs with
  | nil => simp [firstMatch]
  | cons r rs ih =>
    obtain ⟨cat, inc⟩ := r
    rw [firstMatch]
    by_cases h : ruleHit inc up = true
    · rw [if_pos h]
      constructor
      · intro he; exact absurd he (by simp)
      · intro hall
        exact absurd h (by simp [hall (cat, inc) (List.mem_cons_self _ _)])
    · rw [if_neg h, ih]
      constructor
      · intro hall r hr
        rcases List.mem_cons.mp hr with rfl | hr
        · exact (Bool.not_eq_true _).mp h
        · exact hall r hr
      · intro hall r hr
        exact hall r (List.mem_cons_of_mem _ hr)

theorem firstMatch_first (rs : List (String × List String)) (up : List String) :
    ∀ i (hi : i < rs.length), ruleHit (rs.get ⟨i, hi⟩).2 up = true →
      (∀ j (hj : j < i), ruleHit (rs.get ⟨j, Nat.lt_trans hj hi⟩).2 up = false) →
      firstMatch rs up = some (rs.get ⟨i, hi⟩).1 := by
  induction rs with
  | nil => intro i hi; exact absurd hi (Nat.not_lt_zero i)
  | cons r rs ih =>
    intro i hi hhit hprev
    obtain ⟨cat, inc⟩ := r
    cases i with
    | zero =>
      have hhit' : ruleHit inc up = true := hhit
      rw [firstMatch, if_pos hhit']
      rfl
    | succ i =>
      have h0 : ruleHit inc up = false := hprev 0 (Nat.succ_pos i)
      rw [firstMatch, if_neg (by simp [h0])]
      simp only [List.get_cons_succ] at hhit ⊢
      exact ih i (Nat.lt_of_succ_lt_succ hi) hhit
        (fun j hj => hprev (j + 1) (Nat.succ_lt_succ hj))

/-- C4: the classifier is a total function of the theme list; it returns
`none` exactly when no rule's keyword occurs case-insensitively in any
theme, and otherwise the category of the FIRST rule (in the declared order
war, crime, politics, entertainment, disaster, sports, tech, economy) whose
keywords are present — so when several rules' keywords are present, the
earlier rule always wins. -/
theorem classifier_first_rule_wins (themes : List String) :
    (mapThemesToCategory themes = none ↔ ∀ r ∈ RULES, ¬ ciHit r.2 themes) ∧
    ∀ i (hi : i < RULES.length),
      ciHit (RULES.get ⟨i, hi⟩).2 themes →
      (∀ j (hj : j < i), ¬ ciHit (RULES.get ⟨j, Nat.lt_trans hj hi⟩).2 themes) →
      mapThemesToCategory themes = some (RULES.get ⟨i, hi⟩).1 := by
  constructor
  · rw [mapThemesToCategory, firstMatch_eq_none_iff]
    constructor
    · intro hall r hr hci
      exact absurd ((ruleHit_iff r.2 themes (rules_keywords_upper r hr)).mpr hci)
        (by simp [hall r hr])
    · intro hall r hr
      refine (Bool.not_eq_true _).mp (fun ht => ?_)
      exact hall r hr ((ruleHit_iff r.2 themes (rules_keywords_upper r hr)).mp ht)
  · intro i hi hhit hprev
    rw [mapThemesToCategory]
    refine firstMatch_first RULES (themes.map jsToUpper) i hi ?_ ?_
    · exact (ruleHit_iff _ _ (rules_keywords_upper _ (List.get_mem _ _ _))).mpr hhit
    · intro j hj
      refine (Bool.not_eq_true _).mp (fun ht => ?_)
      exact hprev j hj
        ((ruleHit_iff _ _ (rules_keywords_upper _ (List.get_mem _ _ _))).mp ht)

theorem classifier_first_rule_wins_witness :
    ciHit (RULES.get ⟨2, by decide⟩).2 ["elections and jobs"] ∧
    (∀ j (hj : j < 2),
      ¬ ciHit (RULES.get ⟨j, Nat.lt_trans hj (by decide)⟩).2 ["elections and jobs"]) ∧
    mapThemesToCategory ["elections and jobs"] = some (RULES.get ⟨2, by decide⟩).1 :=
  ⟨by decide, by decide,
   (classifier_first_rule_wins ["elections and jobs"]).2 2 (by decide) (by decide) (by decide)⟩

/-! ## C5: aggregation count invariant -/

/-- Number of (fact, mention) pairs whose fact classifies to `cat`. -/
def classifiedPairs (cat : String) (facts : List EventFact) : Nat :=
  (facts.map (fun f =>
    if mapThemesToCategory f.themes = some cat then f.locations.length else 0)).sum

/-- Sum of `counts[cat]` over all buckets. -/
def sumCounts (cat : String) (B : List (String × Bucket)) : Nat :=
  (B.map (fun e => countsGet e.2.counts cat)).sum

theorem countsGet_bump (cat cat' : String) (counts : List (String × Nat)) :
    countsGet (bump cat' counts) cat =
      countsGet counts cat + (if cat' = cat then 1 else 0) := by
  induction counts with
  | nil => by_cases h : cat' = cat <;> simp [bump, countsGet, lookupA, h]
  | cons e rest ih =>
    obtain ⟨c, n⟩ := e
    by_cases h1 : c = cat'
    · subst h1
      by_cases h2 : c = cat <;> simp [bump, countsGet, lookupA, h2]
    · by_cases h2 : c = cat
      · subst h2
        have h3 : ¬(cat' = c) := fun h => h1 h.symm
        simp [bump, countsGet, lookupA, h1, h3]
      · simp only [bump, if_neg h1, countsGet, lookupA, if_neg h2]
        exact ih

theorem sumCounts_aggStep (cat cat' : String) (loc : GeoMention)
    (B : List (String × Bucket)) :
    sumCounts cat (aggStep cat' loc B) =
      sumCounts cat B + (if cat' = cat then 1 else 0) := by
  induction B with
  | nil => by_cases h : cat' = cat <;> simp [aggStep, sumCounts, countsGet, lookupA, h]
  | cons e rest ih =>
    obtain ⟨k, b⟩ := e
    by_cases hk : k = mentionKey loc
    · simp only [aggStep, if_pos hk, sumCounts, List.map_cons, List.sum_cons, countsGet_bump]
      have : ∀ a i r : Nat, a + i + r = a + r + i := fun a i r => Nat.add_right_comm a i r
      exact this _ _ _
    · simp only [aggStep, if_neg hk, sumCounts, List.map_cons, List.sum_cons] at ih ⊢
      rw [ih, Nat.add_assoc]

theorem sumCounts_aggLocs (cat cat' : String) (locs : List GeoMention) :
    ∀ B, sumCounts cat (locs.foldl (fun B loc => aggStep cat' loc B) B) =
      sumCounts cat B + (if cat' = cat then 1 else 0) * locs.length := by
  induction locs with
  | nil => intro B; simp
  | cons loc locs ih =>
    intro B
    simp only [List.foldl_cons, List.length_cons]
    rw [ih, sumCounts_aggStep]
    by_cases h : cat' = cat <;> simp [h] <;> ring

theorem sumCounts_aggFold (cat : String) (facts : List EventFact) :
    ∀ B, sumCounts cat
        (facts.foldl
          (fun B f =>
            match mapThemesToCategory f.themes with
            | none => B
            | some cat => f.locations.foldl (fun B loc => aggStep cat loc B) B) B) =
      sumCounts cat B + classifiedPairs cat facts := by
  induction facts with
  | nil => intro B; simp [classifiedPairs]
  | cons f facts ih =>
    intro B
    simp only [List.foldl_cons]
    cases hc : mapThemesToCategory f.themes with
    | none =>
      rw [ih]
      simp [classifiedPairs, hc]
    | some cat' =>
      rw [ih]
      dsimp only
      rw [sumCounts_aggLocs]
      simp only [classifiedPairs, List.map_cons, List.sum_cons, hc, Option.some.injEq]
      by_cases h : cat' = cat <;> simp [h, classifiedPairs] <;> ring

/-- C5: for every list of parsed facts and every category, the sum of
`counts[cat]` over all aggregation buckets equals the number of
(fact, mention) pairs whose fact classifies to `cat`; in particular a fact
with k mentions sharing one key adds k to that bucket's count. -/
theorem aggregation_count_invariant (facts : List EventFact) (cat : String) :
    sumCounts cat (aggregate facts) = classifiedPairs cat facts := by
  have h := sumCounts_aggFold cat facts []
  simpa [aggregate, sumCounts] using h

/-! ## C6: ranking invariant -/

/-- The ranked entries produced for category `cat`, in push order: one per
`(cat, count)` entry of each place's counts, places in input order. -/
def catProjection (cat : String) (places : List Bucket) : List RankedPlace :=
  places.flatMap (fun p =>
    p.counts.filterMap (fun e => if e.1 = cat then some (toRanked p e.2) else none))

/-- The group collected for a category (`[]` when the key is absent). -/
def groupOf (cat : String) (cats : List (String × List RankedPlace)) : List RankedPlace :=
  (lookupA cat cats).getD []

theorem groupOf_pushCat (q c : String) (rp : RankedPlace)
    (cats : List (String × List RankedPlace)) :
    groupOf q (pushCat c rp cats) =
      groupOf q cats ++ (if c = q then [rp] else []) := by
  induction cats with
  | nil => by_cases h : c = q <;> simp [pushCat, groupOf, lookupA, h]
  | cons e rest ih =>
    obtain ⟨c', l⟩ := e
    by_cases h1 : c' = c
    · subst h1
      by_cases h2 : c' = q <;> simp [pushCat, groupOf, lookupA, h2]
    · by_cases h2 : c' = q
      · subst h2
        have h3 : ¬(c = c') := fun hh => h1 hh.symm
        simp [pushCat, groupOf, lookupA, h1, h3]
      · simp only [pushCat, if_neg h1, groupOf, lookupA, if_neg h2] at ih ⊢
        exact ih

theorem groupOf_countsFold (q : String) (p : Bucket) (counts : List (String × Nat)) :
    ∀ cats, groupOf q (counts.foldl (fun cats e => pushCat e.1 (toRanked p e.2) cats) cats) =
      groupOf q cats ++
        counts.filterMap (fun e => if e.1 = q then some (toRanked p e.2) else none) := by
  induction counts with
  | nil => intro cats; simp
  | cons e rest ih =>
    intro cats
    obtain ⟨c, k⟩ := e
    simp only [List.foldl_cons, List.filterMap_cons]
    rw [ih, groupOf_pushCat]
    by_cases h : c = q <;> simp [h, List.append_assoc]

theorem groupOf_buildCats (q : String) (places : List Bucket) :
    groupOf q (buildCats places) = catProjection q places := by
  suffices h : ∀ cats, groupOf q
      (places.foldl
        (fun cats p => p.counts.foldl (fun cats e => pushCat e.1 (toRanked p e.2) cats) cats)
        cats) = groupOf q cats ++ catProjection q places by
    have h0 := h []
    simpa [buildCats, groupOf, lookupA, catProjection] using h0
  induction places with
  | nil => intro cats; simp [catProjection]
  | cons p rest ih =>
    intro cats
    simp only [List.foldl_cons]
    rw [ih, groupOf_countsFold]
    simp [catProjection, List.append_assoc]

/-- Scores are non-increasing along the list. -/
def ScoreSorted (l : List RankedPlace) : Prop := l.Pairwise (fun a b => b.score ≤ a.score)

theorem insertDesc_mem (c y : RankedPlace) :
    ∀ l, y ∈ insertDesc c l ↔ y = c ∨ y ∈ l := by
  intro l
  induction l with
  | nil => simp [insertDesc]
  | cons x xs ih =>
    by_cases hc : c.score ≤ x.score
    · rw [insertDesc, if_pos hc]
      simp only [List.mem_cons, ih]
      tauto
    · rw [insertDesc, if_neg hc]
      simp only [List.mem_cons]
      try tauto

theorem insertDesc_sorted (c : RankedPlace) :
    ∀ l, ScoreSorted l → ScoreSorted (insertDesc c l) := by
  intro l
  induction l with
  | nil => intro _; simp [insertDesc, ScoreSorted]
  | cons x xs ih =>
    intro h
    have h1 := (List.pairwise_cons.mp h).1
    have h2 := (List.pairwise_cons.mp h).2
    by_cases hc : c.score ≤ x.score
    · rw [insertDesc, if_pos hc]
      refine List.Pairwise.cons ?_ (ih h2)
      intro y hy
      rcases (insertDesc_mem c y xs).mp hy with rfl | hy
      · exact hc
      · exact h1 y hy
    · rw [insertDesc, if_neg hc]
      refine List.Pairwise.cons ?_ h
      intro y hy
      rcases List.mem_cons.mp hy with rfl | hy
      · exact Nat.le_of_lt (Nat.lt_of_not_le hc)
      · exact Nat.le_trans (h1 y hy) (Nat.le_of_lt (Nat.lt_of_not_le hc))

theorem insertDesc_filter (c : RankedPlace) (s : Nat) :
    ∀ l, ScoreSorted l →
      (insertDesc c l).filter (fun x => decide (x.score = s)) =
        l.filter (fun x => decide (x.score = s)) ++ (if c.score = s then [c] else []) := by
  intro l
  induction l with
  | nil => intro _; by_cases hs : c.score = s <;> simp [insertDesc, hs]
  | cons x xs ih =>
    intro h
    have h1 := (List.pairwise_cons.mp h).1
    have h2 := (List.pairwise_cons.mp h).2
    by_cases hc : c.score ≤ x.score
    · rw [insertDesc, if_pos hc]
      by_cases hx : x.score = s <;>
        simp [List.filter_cons, hx, ih h2, List.append_assoc]
    · rw [insertDesc, if_neg hc]
      have hlt : x.score < c.score := Nat.lt_of_not_le hc
      have hnil : (x :: xs).filter (fun y => decide (y.score = c.score)) = [] := by
        refine List.filter_eq_nil_iff.mpr ?_
        intro y hy
        rcases List.mem_cons.mp hy with rfl | hy
        · simp; omega
        · have := h1 y hy
          simp; omega
      by_cases hs : c.score = s
      · subst hs
        simp [List.filter_cons, hnil]
      · simp [List.filter_cons, hs]

theorem sortDesc_fold_sorted :
    ∀ (l : List RankedPlace) (acc), ScoreSorted acc →
      ScoreSorted (l.foldl (fun acc c => insertDesc c acc) acc) := by
  intro l
  induction l with
  | nil => intro acc h; exact h
  | cons c rest ih =>
    intro acc h
    exact ih (insertDesc c acc) (insertDesc_sorted c acc h)

theorem sortDesc_sorted (l : List RankedPlace) : ScoreSorted (sortDesc l) :=
  sortDesc_fold_sorted l [] (by simp [ScoreSorted])

theorem sortDesc_fold_filter (s : Nat) :
    ∀ (l : List RankedPlace) (acc), ScoreSorted acc →
      (l.foldl (fun acc c => insertDesc c acc) acc).filter (fun x => decide (x.score = s)) =
        acc.filter (fun x => decide (x.score = s)) ++
          l.filter (fun x => decide (x.score = s)) := by
  intro l
  induction l with
  | nil => intro acc _; simp
  | cons c rest ih =>
    intro acc h
    simp only [List.foldl_cons]
    rw [ih (insertDesc c acc) (insertDesc_sorted c acc h), insertDesc_filter c s acc h]
    by_cases hs : c.score = s <;> simp [List.filter_cons, hs, List.append_assoc]

/-- Stability of the sort: the equal-score sublists are untouched. -/
theorem sortDesc_filter (l : List RankedPlace) (s : Nat) :
    (sortDesc l).filter (fun x => decide (x.score = s)) =
      l.filter (fun x => decide (x.score = s)) := by
  have h := sortDesc_fold_filter s l [] (by simp [ScoreSorted])
  simpa [sortDesc] using h

theorem filter_take_isPre {α : Type} (p : α → Bool) (n : Nat) (l : List α) :
    (l.take n).filter p <+: l.filter p := by
  conv_rhs => rw [← List.take_append_drop n l]
  rw [List.filter_append]
  exact List.prefix_append _ _

theorem lookupA_rankMap (k : String) (n : Nat) :
    ∀ l : List (String × List RankedPlace),
      lookupA k (l.map (fun e => (e.1, (sortDesc e.2).take n))) =
        (lookupA k l).map (fun g => (sortDesc g).take n) := by
  intro l
  induction l with
  | nil => simp [lookupA]
  | cons e rest ih =>
    obtain ⟨k', v⟩ := e
    by_cases h : k' = k <;> simp [lookupA, h, ih]

/-- C6: in every category's ranked output, scores are non-increasing, the
list has at most `n` entries, and places with equal scores keep the order
in which they were pushed (place input order = the aggregation map's
insertion order): the equal-score sublist of the output is a leading block
of the equal-score sublist of the pushed entries. -/
theorem ranking_invariant (n : Nat) (places : List Bucket) (cat : String)
    (out : List RankedPlace)
    (h : lookupA cat (rankPlaces n places) = some out) :
    ScoreSorted out ∧ out.length ≤ n ∧
    ∀ s : Nat, out.filter (fun x => decide (x.score = s)) <+:
      (catProjection cat places).filter (fun x => decide (x.score = s)) := by
  rw [rankPlaces, lookupA_rankMap] at h
  cases hl : lookupA cat (buildCats places) with
  | none => rw [hl] at h; cases h
  | some l =>
    rw [hl] at h
    have hout : (sortDesc l).take n = out := by
      simpa using h
    have hproj : l = catProjection cat places := by
      rw [← groupOf_buildCats, groupOf, hl]
      rfl
    refine ⟨?_, ?_, ?_⟩
    · rw [← hout]
      exact List.Pairwise.sublist (List.take_sublist _ _) (sortDesc_sorted l)
    · rw [← hout]
      exact List.length_take_le _ _
    · intro s
      rw [← hout, ← hproj, ← sortDesc_filter l s]
      exact filter_take_isPre _ n _

/-- Concrete buckets for the ranking witness. -/
def bucketA : Bucket :=
  { name := "A", lat := JSNum.fin (mkRat 1 1), lon := JSNum.fin (mkRat 2 1)
  , country := "", counts := [("war", 1)] }

def bucketB : Bucket :=
  { name := "B", lat := JSNum.fin (mkRat 3 1), lon := JSNum.fin (mkRat 4 1)
  , country := "", counts := [("war", 2)] }

def bucketC : Bucket :=
  { name := "C", lat := JSNum.fin (mkRat 5 1), lon := JSNum.fin (mkRat 6 1)
  , country := "", counts := [("war", 1)] }

theorem ranking_invariant_witness :
    lookupA "war" (rankPlaces 8 [bucketA, bucketB, bucketC]) =
      some [toRanked bucketB 2, toRanked bucketA 1, toRanked bucketC 1] ∧
    (ScoreSorted [toRanked bucketB 2, toRanked bucketA 1, toRanked bucketC 1] ∧
     [toRanked bucketB 2, toRanked bucketA 1, toRanked bucketC 1].length ≤ 8 ∧
     ∀ s : Nat,
       [toRanked bucketB 2, toRanked bucketA 1, toRanked bucketC 1].filter
           (fun x => decide (x.score = s)) <+:
         (catProjection "war" [bucketA, bucketB, bucketC]).filter
           (fun x => decide (x.score = s))) :=
  ⟨by decide,
   ranking_invariant 8 [bucketA, bucketB, bucketC] "war"
     [toRanked bucketB 2, toRanked bucketA 1, toRanked bucketC 1] (by decide)⟩

/-! ## C10: empty category keys survive in the snapshot -/

theorem catFold_keys (camsOf : RankedPlace → List Camera)
    (ranked : List (String × List RankedPlace)) :
    ∀ acc, (ranked.foldl (catStep camsOf) acc).1.map Prod.fst =
      acc.1.map Prod.fst ++ ranked.map Prod.fst := by
  induction ranked with
  | nil => intro acc; simp
  | cons e rest ih =>
    intro acc
    simp only [List.foldl_cons, List.map_cons]
    rw [ih]
    simp [catStep, List.append_assoc]

theorem placeFold_all_empty (cat : String) (camsOf : RankedPlace → List Camera)
    (pl : List RankedPlace) :
    ∀ acc2, (∀ p ∈ pl, camsOf p = []) →
      pl.foldl (placeStep cat camsOf) acc2 = acc2 := by
  induction pl with
  | nil => intro acc2 _; rfl
  | cons p rest ih =>
    intro acc2 hall
    simp only [List.foldl_cons]
    rw [show placeStep cat camsOf acc2 p = acc2 by
          simp [placeStep, hall p (List.mem_cons_self _ _)]]
    exact ih acc2 (fun q hq => hall q (List.mem_cons_of_mem _ hq))

theorem placeFold_places_nonempty (cat : String) (camsOf : RankedPlace → List Camera)
    (pl : List RankedPlace) :
    ∀ acc2, (∀ q ∈ acc2.2, q.cams ≠ ([] : List Camera)) →
      ∀ q ∈ (pl.foldl (placeStep cat camsOf) acc2).2, q.cams ≠ ([] : List Camera) := by
  induction pl with
  | nil => intro acc2 hacc; exact hacc
  | cons p rest ih =>
    intro acc2 hacc
    simp only [List.foldl_cons]
    refine ih (placeStep cat camsOf acc2 p) ?_
    intro q hq
    by_cases hc : camsOf p = []
    · rw [placeStep] at hq
      simp only [if_pos hc] at hq
      exact hacc q hq
    · rw [placeStep] at hq
      simp only [if_neg hc] at hq
      rcases List.mem_append.mp hq with hq | hq
      · exact hacc q hq
      · rcases List.mem_singleton.mp hq with rfl
        simpa [placeRec] using hc

theorem catFold_places_nonempty (camsOf : RankedPlace → List Camera)
    (ranked : List (String × List RankedPlace)) :
    ∀ acc, (∀ q ∈ acc.2, q.cams ≠ ([] : List Camera)) →
      ∀ q ∈ (ranked.foldl (catStep camsOf) acc).2, q.cams ≠ ([] : List Camera) := by
  induction ranked with
  | nil => intro acc hacc; exact hacc
  | cons e rest ih =>
    intro acc hacc
    simp only [List.foldl_cons]
    refine ih (catStep camsOf acc e) ?_
    exact placeFold_places_nonempty e.1 camsOf e.2 ([], acc.2) hacc

theorem catFold_mem_persists (camsOf : RankedPlace → List Camera)
    (ranked : List (String × List RankedPlace)) :
    ∀ acc x, x ∈ acc.1 → x ∈ (ranked.foldl (catStep camsOf) acc).1 := by
  induction ranked with
  | nil => intro acc x hx; exact hx
  | cons e rest ih =>
    intro acc x hx
    simp only [List.foldl_cons]
    exact ih (catStep camsOf acc e) x (List.mem_append_left _ hx)

theorem catFold_group_mem (camsOf : RankedPlace → List Camera)
    (ranked : List (String × List RankedPlace)) :
    ∀ acc cat pl, (cat, pl) ∈ ranked →
      ∃ l, (cat, l) ∈ (ranked.foldl (catStep camsOf) acc).1 ∧
        ((∀ p ∈ pl, camsOf p = []) → l = []) := by
  induction ranked with
  | nil => intro acc cat pl h; cases h
  | cons e rest ih =>
    intro acc cat pl h
    rcases List.mem_cons.mp h with rfl | h
    · refine ⟨(pl.foldl (placeStep cat camsOf) ([], acc.2)).1, ?_, ?_⟩
      · simp only [List.foldl_cons]
        refine catFold_mem_persists camsOf rest (catStep camsOf acc (cat, pl)) _ ?_
        simp [catStep]
      · intro hall
        rw [placeFold_all_empty cat camsOf pl ([], acc.2) hall]
    · simp only [List.foldl_cons]
      exact ih (catStep camsOf acc e) cat pl h

/-- C10: the snapshot builder creates a key in `categories` for every
ranked category before enrichment filtering; when every ranked place of a
category yields zero cameras, the key survives mapped to the empty list,
while each zero-camera place is itself omitted — every record of the flat
`places` list has a non-empty camera list. -/
theorem empty_categories_kept (camsOf : RankedPlace → List Camera)
    (ranked : List (String × List RankedPlace)) :
    ((buildSections camsOf ranked).1.map Prod.fst = ranked.map Prod.fst) ∧
    (∀ cat pl, (cat, pl) ∈ ranked →
      ∃ l, (cat, l) ∈ (buildSections camsOf ranked).1 ∧
        ((∀ p ∈ pl, camsOf p = []) → l = [])) ∧
    (∀ q ∈ (buildSections camsOf ranked).2, q.cams ≠ ([] : List Camera)) := by
  refine ⟨?_, ?_, ?_⟩
  · have h := catFold_keys camsOf ranked ([], [])
    simpa [buildSections] using h
  · intro cat pl hmem
    exact catFold_group_mem camsOf ranked ([], []) cat pl hmem
  · exact catFold_places_nonempty camsOf ranked ([], []) (by simp)

/-- A ranked place for the C10 witness. -/
def rpW : RankedPlace := toRanked bucketA 1

theorem empty_categories_kept_witness :
    ("war", [rpW]) ∈ [("war", [rpW])] ∧
    (∃ l, ("war", l) ∈ (buildSections (fun _ => []) [("war", [rpW])]).1 ∧
      ((∀ p ∈ [rpW], (fun _ => ([] : List Camera)) p = []) → l = [])) :=
  ⟨by decide,
   (empty_categories_kept (fun _ => []) [("war", [rpW])]).2.1 "war" [rpW] (by decide)⟩

/-! ## C8: bucket identity and seeding -/

/-- The integer count of thousandths a finite value rounds to
(round half toward +∞): the NUMERIC reading of "rounded to 3 decimals". -/
def round3 (q : ℚ) : Int := Int.fdiv (2000 * q.num + (q.den : Int)) (2 * (q.den : Int))

/-- A mention whose latitude is +0.0001. -/
def mentionPos : GeoMention :=
  { name := "X", lat := JSNum.fin (mkRat 1 10000), lon := JSNum.fin (mkRat 5 1), country := "" }

/-- The same mention with latitude -0.0001. -/
def mentionNeg : GeoMention :=
  { name := "X", lat := JSNum.fin (mkRat (-1) 10000), lon := JSNum.fin (mkRat 5 1), country := "" }

/-- C8 counterexample: +0.0001 and -0.0001 both round to 0 at 3 decimals,
yet `toFixed(3)` renders them `"0.000"` and `"-0.000"`, so two mentions
that agree in name and longitude and whose latitudes round to the same
3-decimal value land in TWO different buckets — refuting "same bucket
exactly when the rounded coordinates and names coincide". -/
theorem bucket_key_rounding_cex :
    round3 (mkRat 1 10000) = round3 (mkRat (-1) 10000) ∧
    mentionPos.name = mentionNeg.name ∧
    mentionPos.lon = mentionNeg.lon ∧
    mentionKey mentionPos ≠ mentionKey mentionNeg ∧
    (aggregate [{ themes := ["WAR"], locations := [mentionPos, mentionNeg] }]).length = 2 := by
  decide

theorem digitChar_isDigit (m : Nat) : (digitChar m).isDigit = true := by
  rcases m with _|_|_|_|_|_|_|_|_|n <;> rfl

theorem natDigitsAux_digits :
    ∀ (fuel n : Nat), ∀ c ∈ natDigitsAux fuel n, c.isDigit = true := by
  intro fuel
  induction fuel with
  | zero => intro n c hc; simp [natDigitsAux] at hc
  | succ fuel ih =>
    intro n c hc
    cases n with
    | zero => simp [natDigitsAux] at hc
    | succ k =>
      rw [natDigitsAux] at hc
      rcases List.mem_append.mp hc with hc | hc
      · exact ih _ c hc
      · rcases List.mem_singleton.mp hc with rfl
        exact digitChar_isDigit _

theorem padTo4_digits (n : Nat) {c : Char} (hc : c ∈ padTo4 (natDigits n)) :
    c.isDigit = true := by
  rw [padTo4] at hc
  split at hc
  · rcases List.mem_append.mp hc with hc | hc
    · rw [List.eq_of_mem_replicate hc]; decide
    · exact natDigitsAux_digits _ _ c hc
  · exact natDigitsAux_digits _ _ c hc

theorem fixed3_chars (n : Nat) : ∀ c ∈ fixed3 n, c.isDigit = true ∨ c = '.' := by
  intro c hc
  rw [fixed3] at hc
  rcases List.mem_append.mp hc with hc | hc
  · exact Or.inl (padTo4_digits n (List.take_subset _ _ hc))
  · rcases List.mem_cons.mp hc with rfl | hc
    · exact Or.inr rfl
    · exact Or.inl (padTo4_digits n (List.drop_subset _ _ hc))

theorem toFixed3_chars (x : JSNum) : ∀ c ∈ (toFixed3 x).data, c ≠ ',' ∧ c ≠ ':' := by
  cases x with
  | nan => decide
  | inf => decide
  | negInf => decide
  | fin q =>
    intro c hc
    have hc' : c ∈ (if q.num < 0 then ['-'] else []) ++
        fixed3 ((2000 * q.num.natAbs + q.den) / (2 * q.den)) := hc
    rcases List.mem_append.mp hc' with hs | hf
    · split at hs
      · rw [List.mem_singleton.mp hs]; decide
      · cases hs
    · rcases fixed3_chars _ c hf with hd | rfl
      · constructor <;> rintro rfl <;> exact absurd hd (by decide)
      · decide

theorem str_data_append (s t : String) : (s ++ t).data = s.data ++ t.data := by
  cases s; cases t; rfl

theorem str_ext {s t : String} (h : s.data = t.data) : s = t := by
  cases s; cases t; exact congrArg String.mk h

theorem append_cons_inj (sep : Char) :
    ∀ (A A' B B' : List Char), (∀ c ∈ A, c ≠ sep) → (∀ c ∈ A', c ≠ sep) →
      A ++ sep :: B = A' ++ sep :: B' → A = A' ∧ B = B' := by
  intro A
  induction A with
  | nil =>
    intro A' B B' _ hA' heq
    cases A' with
    | nil =>
      simp only [List.nil_append] at heq
      injection heq with _ h2
      exact ⟨rfl, h2⟩
    | cons a A'' =>
      simp only [List.nil_append, List.cons_append] at heq
      injection heq with h1 _
      exact absurd h1.symm (hA' a (List.mem_cons_self _ _))
  | cons a A ih =>
    intro A' B B' hA hA' heq
    cases A' with
    | nil =>
      simp only [List.cons_append, List.nil_append] at heq
      injection heq with h1 _
      exact absurd h1 (hA a (List.mem_cons_self _ _))
    | cons a' A'' =>
      simp only [List.cons_append] at heq
      injection heq with h1 h2
      obtain ⟨hA0, hB⟩ := ih A'' B B'
        (fun c hc => hA c (List.mem_cons_of_mem _ hc))
        (fun c hc => hA' c (List.mem_cons_of_mem _ hc)) h2
      exact ⟨by rw [h1, hA0], hB⟩

theorem mentionKey_data (m : GeoMention) :
    (mentionKey m).data =
      (toFixed3 m.lat).data ++ ',' :: ((toFixed3 m.lon).data ++ ':' :: m.name.data) := by
  have hcomma : ("," : String).data = [','] := rfl
  have hcolon : (":" : String).data = [':'] := rfl
  simp only [mentionKey, str_data_append, hcomma, hcolon, List.append_assoc,
    List.singleton_append, List.cons_append, List.nil_append]

theorem mentionKey_eq_iff (m1 m2 : GeoMention) :
    mentionKey m1 = mentionKey m2 ↔
      (toFixed3 m1.lat = toFixed3 m2.lat ∧ toFixed3 m1.lon = toFixed3 m2.lon ∧
       m1.name = m2.name) := by
  constructor
  · intro h
    have hd := congrArg String.data h
    rw [mentionKey_data, mentionKey_data] at hd
    obtain ⟨h1, hrest⟩ := append_cons_inj ',' _ _ _ _
      (fun c hc => (toFixed3_chars m1.lat c hc).1)
      (fun c hc => (toFixed3_chars m2.lat c hc).1) hd
    obtain ⟨h2, h3⟩ := append_cons_inj ':' _ _ _ _
      (fun c hc => (toFixed3_chars m1.lon c hc).2)
      (fun c hc => (toFixed3_chars m2.lon c hc).2) hrest
    exact ⟨str_ext h1, str_ext h2, str_ext h3⟩
  · rintro ⟨h1, h2, h3⟩
    rw [mentionKey, mentionKey, h1, h2, h3]

theorem aggStep_lookup (cat : String) (loc : GeoMention) :
    ∀ B, lookupA (mentionKey loc) (aggStep cat loc B) =
      some (match lookupA (mentionKey loc) B with
            | some b => { b with counts := bump cat b.counts }
            | none => { name := loc.name, lat := loc.lat, lon := loc.lon
                      , country := loc.country, counts := [(cat, 1)] }) := by
  intro B
  induction B with
  | nil => simp [aggStep, lookupA]
  | cons e rest ih =>
    obtain ⟨k, b⟩ := e
    by_cases hk : k = mentionKey loc
    · simp [aggStep, lookupA, hk]
    · simp only [aggStep, if_neg hk, lookupA, if_neg hk]
      exact ih

/-- C8 (amended): two mentions fall into the same aggregation bucket
exactly when their `toFixed(3)` latitude strings, `toFixed(3)` longitude
strings, and names all coincide (a negative coordinate rounding to zero
renders `"-0.000"` and is bucketed apart from `"0.000"`); the first mention
with a given key seeds the bucket's `name`/`lat`/`lon`/`country`, and a
later mention with the same key leaves those fields untouched and only
bumps `counts[cat]`. -/
theorem bucket_key_and_seeding (m1 m2 : GeoMention) (cat : String) (loc : GeoMention)
    (B : List (String × Bucket)) :
    (mentionKey m1 = mentionKey m2 ↔
      (toFixed3 m1.lat = toFixed3 m2.lat ∧ toFixed3 m1.lon = toFixed3 m2.lon ∧
       m1.name = m2.name)) ∧
    lookupA (mentionKey loc) (aggStep cat loc B) =
      some (match lookupA (mentionKey loc) B with
            | some b => { b with counts := bump cat b.counts }
            | none => { name := loc.name, lat := loc.lat, lon := loc.lon
                      , country := loc.country, counts := [(cat, 1)] }) :=
  ⟨mentionKey_eq_iff m1 m2, aggStep_lookup cat loc B⟩

end Hotspots
